import Mathlib

/-!
Verification of the flare launcher's query-interpretation and
launch-dispatch core, shallowly embedded from src/app.rs (with the
history record from src/history.rs and the feature switches from
src/config.rs).  External collaborators — the desktop-entry catalog, the
filesystem (directory listing, `is_dir`, the home directory) and the
process host — are modelled as explicit parameters or outcome values.
-/

namespace Flare

/-! ## String primitives (Rust `str` operations used by the core) -/

/-- Helper for `splitWs`: accumulates the current (reversed) token. -/
def splitWsAux : List Char → List Char → List String
  | [], cur => if cur = [] then [] else [String.mk cur.reverse]
  | c :: cs, cur =>
    if c.isWhitespace then
      if cur = [] then splitWsAux cs []
      else String.mk cur.reverse :: splitWsAux cs []
    else splitWsAux cs (c :: cur)

/-- Rust `str::split_whitespace`: whitespace-separated tokens, empties dropped. -/
def splitWs (s : String) : List String := splitWsAux s.data []

/-- Rust `str::trim`: drop leading and trailing whitespace. -/
def trimStr (s : String) : String :=
  String.mk (((s.data.dropWhile Char.isWhitespace).reverse.dropWhile Char.isWhitespace).reverse)

/-- Rust `str::to_lowercase`, modelled characterwise (adequate for the
catalog's characters). -/
def lowerStr (s : String) : String := String.mk (s.data.map Char.toLower)

/-- Rust `str::starts_with` for a string pattern. -/
def startsWithStr (s p : String) : Bool := p.data.isPrefixOf s.data

/-- Rust `Vec::join(" ")`. -/
def joinSpace : List String → String
  | [] => ""
  | [x] => x
  | x :: xs => x ++ " " ++ joinSpace xs

/-- Char position of the last occurrence of `c` (Rust `str::rfind`). -/
def rfindChar (c : Char) : List Char → Option Nat
  | [] => none
  | x :: xs =>
    match rfindChar c xs with
    | some j => some (j + 1)
    | none => if x = c then some 0 else none

/-! ## The subsequence matcher (`fuzzy_match`, src/app.rs) -/

/-- The function `fuzzy_match` (src/app.rs): walk the target left to right, advancing
a cursor over the query on each equal character; true iff the cursor
reaches the end of the query. -/
def fuzzyMatch : List Char → List Char → Bool
  | [], _ => true
  | _ :: _, [] => false
  | q :: qs, t :: ts => if t = q then fuzzyMatch qs ts else fuzzyMatch (q :: qs) ts

/-- The matcher `fuzzy_match` on strings (the form called by the filters). -/
def fuzzy_match (query target : String) : Bool := fuzzyMatch query.data target.data

/-! ## Data model -/

/-- Struct `AppEntry` (src/app.rs): an application name with its parsed Exec
tokens (`command_tokens` in the spec). -/
structure AppEntry where
  name : String
  exec_args : List String
deriving DecidableEq

/-- Struct `History` (src/history.rs): usage counters (an association list
modelling the `HashMap`) and the favourites list. -/
structure History where
  usage : List (String × Nat)
  favorites : List String
deriving DecidableEq

/-- Method `History::get_count`. -/
def History.get_count (h : History) (app_name : String) : Nat :=
  match h.usage.find? (fun p => p.1 == app_name) with
  | some p => p.2
  | none => 0

/-- Method `History::is_favorite`. -/
def History.is_favorite (h : History) (app_name : String) : Bool :=
  h.favorites.contains app_name

/-- Method `History::toggle_favorite` (the save is a collaborator effect). -/
def History.toggle_favorite (h : History) (app_name : String) : History :=
  if h.favorites.contains app_name then { h with favorites := h.favorites.erase app_name }
  else { h with favorites := h.favorites ++ [app_name] }

/-- Method `History::increment` (the save is a collaborator effect). -/
def History.increment (h : History) (app_name : String) : History :=
  if (h.usage.find? (fun p => p.1 == app_name)).isSome then
    { h with usage := h.usage.map (fun p => if p.1 == app_name then (p.1, p.2 + 1) else p) }
  else
    { h with usage := h.usage ++ [(app_name, 1)] }

/-- Enum `AppMode` (src/app.rs); `SudoPassword` is the spec's `PasswordPrompt`. -/
inductive AppMode where
  | AppSelection
  | FileSelection
  | SudoPassword
deriving DecidableEq

/-- The feature switches read by the core (`config.features.*`).
`recent_first` is referenced by src/app.rs though absent from the
`FeaturesConfig` struct in src/config.rs; it is modelled as a plain
boolean here. -/
structure FeaturesConfig where
  enable_file_explorer : Bool
  enable_launch_args : Bool
  enable_auto_complete : Bool
  dirs_first : Bool
  recent_first : Bool
deriving DecidableEq

/-- Struct `App` (src/app.rs): the mutable session state.  `selected` models
`list_state.selected()`; purely visual fields are omitted. -/
structure App where
  search_query : String
  entries : List AppEntry
  filtered_entries : List AppEntry
  selected : Option Nat
  should_quit : Bool
  config : FeaturesConfig
  status_message : Option String
  launch_args : Option (List String)
  mode : AppMode
  filtered_files : List String
  history : History
  sudo_password : String
  pending_command : Option (String × List String × List String)
  sudo_log : List String
  sudo_args : List String
deriving DecidableEq

/-- Function `expand_tilde` (src/app.rs); the home directory is the environment's
(`dirs::home_dir`), `none` when unavailable. -/
def expand_tilde (home : Option String) (path : String) : String :=
  match home with
  | none => path
  | some h =>
    if path = "~" then h
    else if startsWithStr path "~/" then h ++ "/" ++ String.mk (path.data.drop 2)
    else path

/-! ## Candidate ranker (`App::sort_entries`) -/

/-- The comparator inside `App::sort_entries` (src/app.rs): favourites
first, then (when `recent_first`) higher usage count, then
case-insensitive name, then raw name. -/
def entryCmp (history : History) (recent_first : Bool) (a b : AppEntry) : Ordering :=
  let fav_a := history.is_favorite a.name
  let fav_b := history.is_favorite b.name
  if fav_a ≠ fav_b then compare fav_b fav_a
  else if recent_first = true ∧ history.get_count a.name ≠ history.get_count b.name then
    compare (history.get_count b.name) (history.get_count a.name)
  else
    (compare (lowerStr a.name) (lowerStr b.name)).then (compare a.name b.name)

/-- Method `App::sort_entries`: Rust's stable `sort_by`, modelled by the stable
`List.mergeSort`. -/
def sort_entries (a : App) : App :=
  { a with entries :=
      a.entries.mergeSort (fun x y => entryCmp a.history a.config.recent_first x y != Ordering.gt) }

/-- Method `App::new` (src/app.rs): the catalog and history are supplied by the
collaborators (`scan_desktop_files`, `History::load`). -/
def App.new (entries : List AppEntry) (config : FeaturesConfig)
    (status_message : Option String) (history : History) : App :=
  let a : App := {
    search_query := ""
    entries := entries
    filtered_entries := entries
    selected := some 0
    should_quit := false
    config := config
    status_message := status_message
    launch_args := none
    mode := AppMode.AppSelection
    filtered_files := []
    history := history
    sudo_password := ""
    pending_command := none
    sudo_log := []
    sudo_args := [] }
  let a2 := sort_entries a
  { a2 with filtered_entries := a2.entries }

/-! ## Sudo-prefix extraction (`App::update_filter`, first phase) -/

/-- The sudo flags that consume a following value token (src/app.rs). -/
def sudoValueFlags : List String := ["-C", "-g", "-h", "-p", "-r", "-t", "-U", "-u"]

/-- The flag-scanning loop of `App::update_filter`: collect leading dash
tokens (a value flag also takes the next token), returning them together
with the unconsumed remainder. -/
def scanSudoFlags : List String → List String × List String
  | [] => ([], [])
  | p :: rest =>
    if startsWithStr p "-" = true then
      if p ∈ sudoValueFlags then
        match rest with
        | v :: rest2 =>
          let r := scanSudoFlags rest2
          (p :: v :: r.1, r.2)
        | [] => ([p], [])
      else
        let r := scanSudoFlags rest
        (p :: r.1, r.2)
    else ([], p :: rest)

/-- The sudo-prefix extraction of `App::update_filter`: the collected
`sudo_args` and the remaining effective query (`query_slice`). -/
def extractSudo (search_query : String) : List String × String :=
  if startsWithStr search_query "sudo" = true then
    let parts := splitWs search_query
    if parts.head? = some "sudo" then
      let r := scanSudoFlags (parts.drop 1)
      (r.1, joinSpace r.2)
    else ([], search_query)
  else ([], search_query)

/-! ## Query interpreter (`App::update_filter`) -/

/-- Subsequence filtering of the catalog on an already lower-cased query
(src/app.rs). -/
def filterEntries (entries : List AppEntry) (query : String) : List AppEntry :=
  entries.filter (fun e => fuzzy_match query (lowerStr e.name))

/-- One fallback attempt: filter on the first `i` words, space-joined and
lower-cased (src/app.rs). -/
def matchesUpTo (entries : List AppEntry) (words : List String) (i : Nat) : List AppEntry :=
  filterEntries entries (lowerStr (joinSpace (words.take i)))

/-- The fallback loop of `App::update_filter`: try the word counts
`n, n-1, …, 1` and return the first (largest) count with matches. -/
def fallbackFrom (entries : List AppEntry) (words : List String) : Nat → Option (Nat × List AppEntry)
  | 0 => none
  | i + 1 =>
    let m := matchesUpTo entries words (i + 1)
    if m ≠ [] then some (i + 1, m) else fallbackFrom entries words i

/-- The fallback branch of `App::update_filter` (no match on the full
query): word-dropping search, launch-argument capture and the optional
file-completion sub-lookup. -/
def applyFallback (fs : String → Bool → List String) (a : App) (words : List String) : App :=
  match fallbackFrom a.entries words (words.length - 1) with
  | some (i, sub_matches) =>
    let a := { a with filtered_entries := sub_matches }
    if a.config.enable_launch_args = true then
      let args := words.drop i
      let a :=
        match args.getLast? with
        | some last_arg =>
          if a.config.enable_file_explorer = true ∧ startsWithStr last_arg "-" = false then
            let files := fs last_arg a.config.dirs_first
            if files ≠ [] then
              { a with filtered_files := files, mode := AppMode.FileSelection }
            else a
          else a
        | none => a
      { a with launch_args := some args }
    else a
  | none => { a with filtered_entries := [] }

/-- The recomputation phase of `App::update_filter` before the selection
reset: sudo extraction, mode selection, application filtering, fallback.
The Directory Lister (`list_files`) is the collaborator `fs`. -/
def recomputeLists (fs : String → Bool → List String) (a0 : App) : App :=
  let a := { a0 with launch_args := none, mode := AppMode.AppSelection,
                     filtered_files := [], sudo_args := (extractSudo a0.search_query).1 }
  let query_slice_str := trimStr (extractSudo a0.search_query).2
  if a.config.enable_file_explorer = true ∧
      (startsWithStr query_slice_str "~" = true ∨ startsWithStr query_slice_str "/" = true) then
    { a with mode := AppMode.FileSelection,
             filtered_files := fs query_slice_str a.config.dirs_first,
             filtered_entries := [] }
  else if query_slice_str = "" then
    { a with filtered_entries := a.entries }
  else
    let full_matches := filterEntries a.entries (lowerStr query_slice_str)
    if full_matches ≠ [] then { a with filtered_entries := full_matches }
    else applyFallback fs a (splitWs query_slice_str)

/-- Length of the active candidate list for the current mode
(the `count` computation at the end of `App::update_filter`). -/
def activeLen (a : App) : Nat :=
  if a.mode = AppMode.AppSelection then a.filtered_entries.length else a.filtered_files.length

/-- Method `App::update_filter` (src/app.rs): recompute the candidate lists,
then reset the selection. -/
def update_filter (fs : String → Bool → List String) (a0 : App) : App :=
  let a := recomputeLists fs a0
  { a with selected := if activeLen a = 0 then none else some 0 }

/-- The effective query of a state: what remains of `search_query` after
sudo extraction, trimmed (the `query_slice_str` of `App::update_filter`). -/
def effQuery (a : App) : String := trimStr (extractSudo a.search_query).2

/-- The whitespace-separated words of the effective query. -/
def effWords (a : App) : List String := splitWs (effQuery a)

/-! ## Selection movement and the remaining operations -/

/-- Method `App::move_selection` (src/app.rs). -/
def move_selection (delta : Int) (a : App) : App :=
  let len := activeLen a
  if len = 0 then a
  else
    let i : Nat :=
      match a.selected with
      | some i => (((i : Int) + delta) % (len : Int)).toNat
      | none => 0
    { a with selected := some i }

/-- Method `App::select_first` (src/app.rs). -/
def select_first (a : App) : App :=
  if 0 < activeLen a then { a with selected := some 0 } else a

/-- Method `App::select_last` (src/app.rs). -/
def select_last (a : App) : App :=
  if 0 < activeLen a then { a with selected := some (activeLen a - 1) } else a

/-- Method `App::toggle_favorite` (src/app.rs). -/
def toggle_favorite (fs : String → Bool → List String) (a : App) : App :=
  if a.mode = AppMode.AppSelection then
    match a.selected with
    | some i =>
      match a.filtered_entries[i]? with
      | some entry =>
        update_filter fs (sort_entries { a with history := a.history.toggle_favorite entry.name })
      | none => a
    | none => a
  else a

/-- Method `App::auto_complete` (src/app.rs); `isDir` models `Path::is_dir` on
the expanded path. -/
def auto_complete (fs : String → Bool → List String) (isDir : String → Bool)
    (home : Option String) (a : App) : App :=
  if a.config.enable_auto_complete = false then a
  else if a.mode = AppMode.FileSelection then
    match a.selected with
    | some i =>
      match a.filtered_files[i]? with
      | some selected_file =>
        let new_path :=
          if isDir (expand_tilde home selected_file) then selected_file ++ "/" else selected_file
        let sq :=
          match rfindChar ' ' a.search_query.data with
          | some idx => String.mk (a.search_query.data.take (idx + 1)) ++ new_path
          | none => new_path
        update_filter fs { a with search_query := sq }
      | none => a
    | none => a
  else a

/-! ## Launch composer and dispatcher (`App::launch_selected`) -/

/-- The desktop placeholder tokens (src/app.rs). -/
def placeholderTokens : List String := ["%f", "%F", "%u", "%U"]

/-- Whether a template token is one of `%f`, `%F`, `%u`, `%U`. -/
def isPlaceholder (s : String) : Bool := s ∈ placeholderTokens

/-- The `last_mut` overwrite: replace the last element, if any. -/
def setLast (l : List String) (v : String) : List String :=
  match l with
  | [] => []
  | [_] => [v]
  | x :: xs => x :: setLast xs v

/-- The placeholder-substitution walk of `App::launch_selected`: the
rewritten template and whether any placeholder was hit (`replaced`). -/
def substPlaceholders (exp : List String) : List String → List String × Bool
  | [] => ([], false)
  | t :: ts =>
    let r := substPlaceholders exp ts
    if isPlaceholder t = true then (exp ++ r.1, true) else (t :: r.1, r.2)

/-- The final-argument composition of `App::launch_selected`
(src/app.rs lines 330–375). -/
def composeArgs (enable_launch_args : Bool) (launch_args : Option (List String))
    (mode : AppMode) (selected_file : Option String) (home : Option String)
    (template : List String) : List String :=
  if enable_launch_args = true then
    match launch_args with
    | some la =>
      let cur :=
        if mode = AppMode.FileSelection then
          match selected_file with
          | some f => setLast la f
          | none => la
        else la
      let exp := cur.map (expand_tilde home)
      let r := substPlaceholders exp template
      if r.2 = true then r.1 else r.1 ++ exp
    | none => template.filter (fun t => ! isPlaceholder t)
  else template.filter (fun t => ! isPlaceholder t)

/-- The Launch Composer contract as worded in the spec (§4.5) and claim
C3: with support enabled and arguments pending, overwrite the last
pending argument with the selected file in `FileSelection`, tilde-expand
all of them, then replace each placeholder token in place by the entire
expanded list — appending the list at the end if no placeholder occurred;
otherwise drop every placeholder token and append nothing. -/
def composeArgsSpec (enable_launch_args : Bool) (launch_args : Option (List String))
    (mode : AppMode) (selected_file : Option String) (home : Option String)
    (template : List String) : List String :=
  match enable_launch_args, launch_args with
  | true, some la =>
    let cur :=
      if mode = AppMode.FileSelection then
        match selected_file with
        | some f => la.dropLast ++ [f]
        | none => la
      else la
    let exp := cur.map (expand_tilde home)
    if template.any (fun t => isPlaceholder t) then
      template.flatMap (fun t => if isPlaceholder t = true then exp else [t])
    else template ++ exp
  | _, _ => template.filter (fun t => ! isPlaceholder t)

/-- The externally visible request produced by `App::launch_selected`:
nothing, the sudo-verification continuation, opening a plain file, or a
detached spawn of `(cmd, args)` for the named entry. -/
inductive LaunchAction where
  | noop
  | verify
  | openFile (path : String)
  | spawnReq (cmd : String) (args : List String) (entry_name : String)
deriving DecidableEq

/-- Method `App::launch_selected` (src/app.rs lines 307–389), up to the external
process spawn: the updated state and the requested action. -/
def launch_selected (home : Option String) (a : App) : App × LaunchAction :=
  if a.mode = AppMode.SudoPassword then (a, LaunchAction.verify)
  else
    match a.selected with
    | Option.none => (a, LaunchAction.noop)
    | some i =>
      if a.mode = AppMode.FileSelection ∧ a.filtered_entries = [] then
        match a.filtered_files[i]? with
        | some selected_file => (a, LaunchAction.openFile selected_file)
        | Option.none => (a, LaunchAction.noop)
      else
        match (if a.mode = AppMode.FileSelection then a.filtered_entries.head?
               else a.filtered_entries[i]?) with
        | Option.none => (a, LaunchAction.noop)
        | some entry =>
          let a2 := { a with history := a.history.increment entry.name }
          match entry.exec_args with
          | [] => (a2, LaunchAction.noop)
          | cmd :: template =>
            let final_args :=
              composeArgs a2.config.enable_launch_args a2.launch_args a2.mode
                a2.filtered_files[i]? home template
            if startsWithStr a2.search_query "sudo" = true then
              ({ a2 with mode := AppMode.SudoPassword,
                         sudo_password := "",
                         sudo_log := ["Password: "],
                         pending_command := some (cmd, final_args, a2.sudo_args) },
               LaunchAction.noop)
            else (a2, LaunchAction.spawnReq cmd final_args entry.name)

/-! ## Escalation handshake (`App::verify_sudo_and_launch`) -/

/-- The validation-flag allow-list filter applied to `sudo_args` before
the validation child is spawned (src/app.rs lines 422–425). -/
def validationArgs (sudo_args : List String) : List String :=
  sudo_args.filter (fun arg =>
    arg ∈ (["-u", "-g", "-h", "-p", "-n", "-k", "-S"] : List String) ∨
      startsWithStr arg "-" = false)

/-- Outcome of the external sudo round-trips in
`App::verify_sudo_and_launch`, supplied by the Process Host:
validation-child spawn failure, password-write failure, wait failure,
rejected password, successful background relaunch, or relaunch failure. -/
inductive SudoOutcome where
  | spawnErr (msg : String)
  | writeErr
  | waitErr (msg : String)
  | exitNonZero
  | launched
  | relaunchErr (msg : String)
deriving DecidableEq

/-- Method `App::verify_sudo_and_launch` (src/app.rs lines 419–504) with the two
child-process round-trips abstracted into a `SudoOutcome`. -/
def verify_sudo_and_launch (outcome : SudoOutcome) (a : App) : App :=
  match a.pending_command with
  | none => a
  | some _ =>
    match outcome with
    | SudoOutcome.spawnErr msg =>
      { a with sudo_log := a.sudo_log ++ ["Failed to run sudo: " ++ msg, "Password: "],
               sudo_password := "" }
    | SudoOutcome.writeErr =>
      { a with sudo_log := a.sudo_log ++ ["Failed to write password", "Password: "],
               sudo_password := "" }
    | SudoOutcome.waitErr msg =>
      { a with sudo_log := a.sudo_log ++ ["Sudo check failed: " ++ msg, "Password: "],
               sudo_password := "" }
    | SudoOutcome.exitNonZero =>
      { a with sudo_log := a.sudo_log ++ ["Sorry, try again.", "Password: "],
               sudo_password := "" }
    | SudoOutcome.launched =>
      { a with should_quit := true, status_message := none }
    | SudoOutcome.relaunchErr msg =>
      { a with status_message := some ("Failed to launch sudo: " ++ msg) }

/-- The transcript line produced by each failing validation outcome
(`none` for the two non-failure outcomes of the success path). -/
def sudoFailMsg : SudoOutcome → Option String
  | SudoOutcome.spawnErr msg => some ("Failed to run sudo: " ++ msg)
  | SudoOutcome.writeErr => some "Failed to write password"
  | SudoOutcome.waitErr msg => some ("Sudo check failed: " ++ msg)
  | SudoOutcome.exitNonZero => some "Sorry, try again."
  | SudoOutcome.launched => none
  | SudoOutcome.relaunchErr _ => none

/-! ## Reachability and the selection invariant -/

/-- The selection invariant stated by the spec (§3): `selected` is `none`
iff the active list is empty, otherwise a valid index into it. -/
def selInv (a : App) : Prop :=
  match a.selected with
  | none => activeLen a = 0
  | some i => i < activeLen a

/-- States reachable through the core operations named by claim C5:
construction, query recomputation, selection movement, select
first/last, favourite toggle, auto-complete.  The collaborator inputs
(filesystem view, directory test, home) may differ at every step. -/
inductive Reachable : App → Prop where
  | init (entries : List AppEntry) (config : FeaturesConfig)
      (status_message : Option String) (history : History) :
      Reachable (App.new entries config status_message history)
  | filter (fs) {a} : Reachable a → Reachable (update_filter fs a)
  | move (delta) {a} : Reachable a → Reachable (move_selection delta a)
  | first {a} : Reachable a → Reachable (select_first a)
  | last {a} : Reachable a → Reachable (select_last a)
  | fav (fs) {a} : Reachable a → Reachable (toggle_favorite fs a)
  | auto (fs isDir home) {a} : Reachable a → Reachable (auto_complete fs isDir home a)

/-- Reachability as in `Reachable`, but with the catalog required to be
non-empty at construction. -/
inductive ReachableNE : App → Prop where
  | init (entries : List AppEntry) (config : FeaturesConfig)
      (status_message : Option String) (history : History)
      (hne : entries ≠ []) :
      ReachableNE (App.new entries config status_message history)
  | filter (fs) {a} : ReachableNE a → ReachableNE (update_filter fs a)
  | move (delta) {a} : ReachableNE a → ReachableNE (move_selection delta a)
  | first {a} : ReachableNE a → ReachableNE (select_first a)
  | last {a} : ReachableNE a → ReachableNE (select_last a)
  | fav (fs) {a} : ReachableNE a → ReachableNE (toggle_favorite fs a)
  | auto (fs isDir home) {a} : ReachableNE a → ReachableNE (auto_complete fs isDir home a)

/-- Shape of a collected sudo flag list: a sequence of dash tokens in
which a value-taking flag is followed by the token it consumed — except
possibly a value-taking flag left dangling at the very end of the query. -/
inductive SudoFlagSeq : List String → Prop where
  | nil : SudoFlagSeq []
  | plain (p : String) (rest : List String) :
      startsWithStr p "-" = true → p ∉ sudoValueFlags → SudoFlagSeq rest →
      SudoFlagSeq (p :: rest)
  | valued (p v : String) (rest : List String) :
      startsWithStr p "-" = true → p ∈ sudoValueFlags → SudoFlagSeq rest →
      SudoFlagSeq (p :: v :: rest)
  | dangling (p : String) :
      startsWithStr p "-" = true → p ∈ sudoValueFlags → SudoFlagSeq [p]

/-! ## Concrete fixtures for witnesses and counterexamples -/

/-- A feature configuration with every switch off. -/
def cfg0 : FeaturesConfig :=
  { enable_file_explorer := false, enable_launch_args := false,
    enable_auto_complete := false, dirs_first := false, recent_first := false }

/-- Configuration `cfg0` with launch-argument support enabled. -/
def cfgLA : FeaturesConfig := { cfg0 with enable_launch_args := true }

/-- The empty history. -/
def hist0 : History := { usage := [], favorites := [] }

/-- A filesystem view with no entries anywhere. -/
def fs0 : String → Bool → List String := fun _ _ => []

/-- A sample catalog entry. -/
def fxEntry : AppEntry := { name := "Firefox", exec_args := ["firefox", "%u"] }

/-- A second sample catalog entry, whose name starts with `sudo`. -/
def sudokuEntry : AppEntry := { name := "Sudoku", exec_args := ["sudoku"] }

/-- A base session state for the concrete test states. -/
def baseApp : App :=
  { search_query := "", entries := [], filtered_entries := [], selected := none,
    should_quit := false, config := cfg0, status_message := none, launch_args := none,
    mode := AppMode.AppSelection, filtered_files := [], history := hist0,
    sudo_password := "", pending_command := none, sudo_log := [], sudo_args := [] }

/-- Query `"fire fox"` over a catalog containing only Firefox, with
launch-argument support disabled. -/
def appC1 : App :=
  { baseApp with
    search_query := "fire fox", entries := [fxEntry],
    filtered_entries := [fxEntry], selected := some 0 }

/-- State `appC1` with launch-argument support enabled. -/
def appC1b : App := { appC1 with config := cfgLA }

/-- A query whose first whitespace-separated token is `sudo` but which
does not start with the string `sudo` (leading space). -/
def appC6 : App := { baseApp with search_query := " sudo -u root htop" }

/-- Five catalog entries, used for the selection-wrap states. -/
def fiveEntries : List AppEntry :=
  [{ name := "A", exec_args := [] }, { name := "B", exec_args := [] },
   { name := "C", exec_args := [] }, { name := "D", exec_args := [] },
   { name := "E", exec_args := [] }]

/-- Five filtered entries and no selection. -/
def app9none : App := { baseApp with entries := fiveEntries, filtered_entries := fiveEntries }

/-- Five filtered entries, index 0 selected. -/
def app9zero : App := { app9none with selected := some 0 }

/-- Query `"sudoku"` with the Sudoku entry selected: the raw query does
not begin with a `sudo` token, but does begin with the string `sudo`. -/
def appSudoku : App :=
  { baseApp with
    search_query := "sudoku", entries := [sudokuEntry],
    filtered_entries := [sudokuEntry], selected := some 0 }

/-- A password-prompt state with a pending command. -/
def app8 : App :=
  { baseApp with
    mode := AppMode.SudoPassword,
    pending_command := some ("htop", [], []), sudo_password := "pw",
    sudo_log := ["Password: "] }

/-- A `FileSelection` state with a non-empty fallback application match,
pending launch arguments, and the second file selected. -/
def app10 : App :=
  { baseApp with
    config := cfgLA, search_query := "fire fox /tmp/",
    entries := [fxEntry, sudokuEntry], filtered_entries := [fxEntry, sudokuEntry],
    mode := AppMode.FileSelection, filtered_files := ["/tmp/a", "/tmp/b"],
    selected := some 1, launch_args := some ["/tmp/"] }

/-! ## Theorems: the subsequence matcher (C2) -/

theorem fuzzyMatch_iff_sublist : ∀ (t q : List Char), fuzzyMatch q t = true ↔ q.Sublist t := by
  intro t
  induction t with
  | nil =>
    intro q
    cases q with
    | nil => simp [fuzzyMatch]
    | cons x xs => simp [fuzzyMatch]
  | cons y ys ih =>
    intro q
    cases q with
    | nil => simp [fuzzyMatch]
    | cons x xs =>
      by_cases h : y = x
      · subst h
        have e : fuzzyMatch (y :: xs) (y :: ys) = fuzzyMatch xs ys := by
          simp [fuzzyMatch]
        rw [e, ih xs, List.cons_sublist_cons]
      · have e : fuzzyMatch (x :: xs) (y :: ys) = fuzzyMatch (x :: xs) ys := by
          simp [fuzzyMatch, h]
        rw [e, ih (x :: xs)]
        constructor
        · intro hs
          exact hs.cons y
        · intro hs
          cases hs with
          | cons _ hs => exact hs
          | cons₂ => exact absurd rfl h

/-- C2: `fuzzy_match query target` is true iff the characters of the
query occur in the target in order (not necessarily contiguously, i.e.
the query is a sublist of the target's character sequence); the empty
query matches every target; any non-empty query fails against the empty
target. -/
theorem C2_fuzzy_match_is_subsequence :
    ∀ (q t : String) (c : Char),
      (fuzzy_match q t = true ↔ q.data.Sublist t.data) ∧
      fuzzy_match "" t = true ∧
      fuzzy_match (String.mk (c :: q.data)) "" = false := by
  intro q t c
  exact ⟨fuzzyMatch_iff_sublist t.data q.data, by simp [fuzzy_match, fuzzyMatch], rfl⟩

/-! ## Theorems: the candidate ranker (C7) -/

/-- C7: the ranking comparator orders every favourited entry before every
non-favourited one regardless of the recency switch; with `recent_first`
set and equal favourite status the higher usage count comes first; the
remaining ties reduce to case-insensitive name order, refined by raw name
order. -/
theorem C7_ranking_comparator (history : History) (recent_first : Bool) (a b : AppEntry) :
    (history.is_favorite a.name = true → history.is_favorite b.name = false →
      entryCmp history recent_first a b = Ordering.lt) ∧
    (history.is_favorite a.name = false → history.is_favorite b.name = true →
      entryCmp history recent_first a b = Ordering.gt) ∧
    (history.is_favorite a.name = history.is_favorite b.name →
      history.get_count b.name < history.get_count a.name →
      entryCmp history true a b = Ordering.lt) ∧
    (history.is_favorite a.name = history.is_favorite b.name →
      (recent_first = false ∨ history.get_count a.name = history.get_count b.name) →
      entryCmp history recent_first a b =
        (compare (lowerStr a.name) (lowerStr b.name)).then (compare a.name b.name)) := by
  refine ⟨?_, ?_, ?_, ?_⟩
  · intro h1 h2
    have e : entryCmp history recent_first a b =
        compare (history.is_favorite b.name) (history.is_favorite a.name) := by
      simp only [entryCmp]
      rw [if_pos (by simp [h1, h2])]
    rw [e, h1, h2]
    decide
  · intro h1 h2
    have e : entryCmp history recent_first a b =
        compare (history.is_favorite b.name) (history.is_favorite a.name) := by
      simp only [entryCmp]
      rw [if_pos (by simp [h1, h2])]
    rw [e, h1, h2]
    decide
  · intro h1 h2
    have hne : history.get_count a.name ≠ history.get_count b.name := Ne.symm (Nat.ne_of_lt h2)
    simp only [entryCmp]
    rw [if_neg (fun hcon => hcon h1), if_pos ⟨trivial, hne⟩]
    exact Nat.compare_eq_lt.mpr h2
  · intro h1 h2
    simp only [entryCmp]
    rw [if_neg (fun hcon => hcon h1)]
    rcases h2 with h2 | h2
    · rw [if_neg (fun hcon => by simp [h2] at hcon)]
    · rw [if_neg (fun hcon => hcon.2 h2)]

/-- Witness for C7 at a concrete history and pair of entries. -/
theorem C7_witness :
    entryCmp { usage := [], favorites := ["Firefox"] } false fxEntry sudokuEntry =
      Ordering.lt :=
  (C7_ranking_comparator { usage := [], favorites := ["Firefox"] } false fxEntry sudokuEntry).1
    (by decide) (by decide)

/-! ## Theorems: the launch composer (C3) -/

theorem substPlaceholders_fst (exp : List String) :
    ∀ ts : List String, (substPlaceholders exp ts).1 =
      ts.flatMap (fun t => if isPlaceholder t = true then exp else [t]) := by
  intro ts
  induction ts with
  | nil => rfl
  | cons t ts ih =>
    by_cases h : isPlaceholder t = true
    · simp [substPlaceholders, h, ih]
    · simp [substPlaceholders, h, ih]

theorem substPlaceholders_snd (exp : List String) :
    ∀ ts : List String, (substPlaceholders exp ts).2 = ts.any (fun t => isPlaceholder t) := by
  intro ts
  induction ts with
  | nil => rfl
  | cons t ts ih =>
    by_cases h : isPlaceholder t = true
    · simp [substPlaceholders, h]
    · simp [substPlaceholders, h, ih]

theorem flatMap_of_no_placeholder (exp : List String) :
    ∀ ts : List String, ts.any (fun t => isPlaceholder t) = false →
      ts.flatMap (fun t => if isPlaceholder t = true then exp else [t]) = ts := by
  intro ts
  induction ts with
  | nil => intro _; rfl
  | cons t ts ih =>
    intro h
    rw [List.any_cons, Bool.or_eq_false_iff] at h
    simp [h.1, ih h.2]

theorem setLast_eq : ∀ (l : List String) (v : String), l ≠ [] →
    setLast l v = l.dropLast ++ [v] := by
  intro l
  induction l with
  | nil => intro v h; exact absurd rfl h
  | cons x xs ih =>
    intro v _
    cases xs with
    | nil => rfl
    | cons y ys =>
      have := ih v (by simp)
      simp [setLast, this]

theorem composeArgs_eq_spec (enable : Bool) (laOpt : Option (List String))
    (mode : AppMode) (sf home : Option String) (template : List String)
    (hla : laOpt ≠ some []) :
    composeArgs enable laOpt mode sf home template =
      composeArgsSpec enable laOpt mode sf home template := by
  cases enable with
  | false => cases laOpt <;> rfl
  | true =>
    cases laOpt with
    | none => rfl
    | some la =>
      have hne : la ≠ [] := fun h => hla (by rw [h])
      have hcur :
          (if mode = AppMode.FileSelection then
            match sf with
            | some f => setLast la f
            | none => la
          else la) =
          (if mode = AppMode.FileSelection then
            match sf with
            | some f => la.dropLast ++ [f]
            | none => la
          else la) := by
        by_cases hm : mode = AppMode.FileSelection
        · cases sf with
          | none => simp [hm]
          | some f => simp [hm, setLast_eq la f hne]
        · simp [hm]
      simp only [composeArgs, composeArgsSpec]
      rw [hcur, substPlaceholders_snd, substPlaceholders_fst]
      by_cases hany : template.any (fun t => isPlaceholder t) = true
      · simp [hany]
      · simp [hany, flatMap_of_no_placeholder _ template (Bool.eq_false_iff.mpr hany)]

/-- C3: the launch-argument composition of `launch_selected` agrees, for
every configuration, mode, home directory, template and (non-empty)
pending-argument state, with the spec-worded contract `composeArgsSpec`
(overwrite last pending argument with the selected file in
`FileSelection`, tilde-expand, substitute each placeholder in place by
the whole list, append when no placeholder occurs, drop placeholders and
append nothing when disabled or nothing is pending); the spec's concrete
example evaluates as stated. -/
theorem C3_launch_composition (enable : Bool) (laOpt : Option (List String))
    (mode : AppMode) (sf home : Option String) (template : List String) :
    (laOpt ≠ some [] →
      composeArgs enable laOpt mode sf home template =
        composeArgsSpec enable laOpt mode sf home template) ∧
    composeArgs true (some ["~/a.txt"]) AppMode.AppSelection none (some "/home/u")
        ["--new-window", "%U"] = ["--new-window", "/home/u/a.txt"] :=
  ⟨composeArgs_eq_spec enable laOpt mode sf home template, by rfl⟩

/-- Witness for C3 at a concrete input with a pending argument list. -/
theorem C3_witness :
    composeArgs true (some ["~/a.txt"]) AppMode.FileSelection (some "/tmp/x") none ["%f"] =
      composeArgsSpec true (some ["~/a.txt"]) AppMode.FileSelection (some "/tmp/x") none
        ["%f"] :=
  (C3_launch_composition true (some ["~/a.txt"]) AppMode.FileSelection (some "/tmp/x") none
    ["%f"]).1 (by decide)

/-! ## Theorems: the escalation handshake (C8) -/

/-- C8: every failing validation outcome — rejected password, spawn
failure, wait failure, or an I/O error writing the password — leaves the
mode at the password prompt, clears the password buffer, and appends
exactly two transcript lines: the failure message (`"Sorry, try again."`
for a rejected password) followed by a fresh `"Password: "` line. -/
theorem C8_failed_validation (a : App) (outcome : SudoOutcome)
    (pc : String × List String × List String) (msg : String)
    (hmode : a.mode = AppMode.SudoPassword)
    (hpc : a.pending_command = some pc)
    (hfail : sudoFailMsg outcome = some msg) :
    (verify_sudo_and_launch outcome a).mode = AppMode.SudoPassword ∧
    (verify_sudo_and_launch outcome a).sudo_password = "" ∧
    (verify_sudo_and_launch outcome a).sudo_log = a.sudo_log ++ [msg, "Password: "] ∧
    sudoFailMsg SudoOutcome.exitNonZero = some "Sorry, try again." := by
  cases outcome <;>
    simp_all [verify_sudo_and_launch, sudoFailMsg]

/-- Witness for C8: a rejected password at a concrete prompt state. -/
theorem C8_witness :
    (verify_sudo_and_launch SudoOutcome.exitNonZero app8).mode = AppMode.SudoPassword ∧
    (verify_sudo_and_launch SudoOutcome.exitNonZero app8).sudo_password = "" ∧
    (verify_sudo_and_launch SudoOutcome.exitNonZero app8).sudo_log =
      app8.sudo_log ++ ["Sorry, try again.", "Password: "] ∧
    sudoFailMsg SudoOutcome.exitNonZero = some "Sorry, try again." :=
  C8_failed_validation app8 SudoOutcome.exitNonZero ("htop", [], []) "Sorry, try again."
    (by rfl) (by rfl) (by rfl)

/-! ## Theorems: selection movement (C9) -/

/-- C9 counterexample: on a non-empty active list with a `none`
selection, `move_selection 3` yields index 0 — the delta is discarded,
not applied on top of a starting index 0 (which would give
`(0 + 3) mod 5 = 3`). -/
theorem C9_counterexample :
    app9none.selected = none ∧ activeLen app9none = 5 ∧
    (move_selection 3 app9none).selected = some 0 ∧
    (((0 : Int) + 3) % (5 : Int)).toNat = 3 := by
  refine ⟨rfl, rfl, rfl, rfl⟩

theorem move_selection_spec (a : App) (delta : Int) :
    (activeLen a = 0 → move_selection delta a = a) ∧
    (∀ i, activeLen a ≠ 0 → a.selected = some i →
      (move_selection delta a).selected =
        some ((((i : Int) + delta) % ((activeLen a : Nat) : Int)).toNat) ∧
      (((i : Int) + delta) % ((activeLen a : Nat) : Int)).toNat < activeLen a) ∧
    (activeLen a ≠ 0 → a.selected = none → (move_selection delta a).selected = some 0) := by
  refine ⟨?_, ?_, ?_⟩
  · intro h
    simp [move_selection, h]
  · intro i h hsel
    have hpos : (0 : Int) < ((activeLen a : Nat) : Int) := by
      exact_mod_cast Nat.pos_of_ne_zero h
    have hnn : (0 : Int) ≤ ((i : Int) + delta) % ((activeLen a : Nat) : Int) :=
      Int.emod_nonneg _ (by omega)
    have hlt : ((i : Int) + delta) % ((activeLen a : Nat) : Int) < ((activeLen a : Nat) : Int) :=
      Int.emod_lt_of_pos _ hpos
    constructor
    · simp [move_selection, h, hsel]
    · exact (Int.toNat_lt hnn).mpr hlt
  · intro h hsel
    simp [move_selection, h, hsel]

/-- C9 (amended): `move_selection` is a no-op on an empty active list;
with a selection present the new index is `(current + delta) mod length`
(Euclidean, wrapping both directions, always in bounds); a `none`
selection yields index 0 with the delta discarded.  The spec's wrap
examples hold: length 5, index 0: delta −1 gives 4 and delta 6 gives 1. -/
theorem C9_move_selection (a : App) (delta : Int) :
    (activeLen a = 0 → move_selection delta a = a) ∧
    (∀ i, activeLen a ≠ 0 → a.selected = some i →
      (move_selection delta a).selected =
        some ((((i : Int) + delta) % ((activeLen a : Nat) : Int)).toNat) ∧
      (((i : Int) + delta) % ((activeLen a : Nat) : Int)).toNat < activeLen a) ∧
    (activeLen a ≠ 0 → a.selected = none → (move_selection delta a).selected = some 0) ∧
    (move_selection (-1) app9zero).selected = some 4 ∧
    (move_selection 6 app9zero).selected = some 1 :=
  ⟨(move_selection_spec a delta).1, (move_selection_spec a delta).2.1,
    (move_selection_spec a delta).2.2, rfl, rfl⟩

/-- Witness for C9 at the concrete length-5 state with index 0 selected. -/
theorem C9_witness :
    (move_selection (-1) app9zero).selected =
      some ((((0 : Int) + (-1)) % ((activeLen app9zero : Nat) : Int)).toNat) ∧
    (((0 : Int) + (-1)) % ((activeLen app9zero : Nat) : Int)).toNat < activeLen app9zero :=
  (C9_move_selection app9zero (-1)).2.1 0 (by decide) (by rfl)

/-! ## Theorems: the selection invariant (C5) -/

theorem activeLen_set_selected (a : App) (s : Option Nat) :
    activeLen { a with selected := s } = activeLen a := rfl

theorem selInv_update_filter (fs : String → Bool → List String) (a0 : App) :
    selInv (update_filter fs a0) := by
  show selInv { recomputeLists fs a0 with
    selected := if activeLen (recomputeLists fs a0) = 0 then none else some 0 }
  by_cases h : activeLen (recomputeLists fs a0) = 0
  · rw [if_pos h]
    simpa [selInv, activeLen_set_selected] using h
  · rw [if_neg h]
    simpa [selInv, activeLen_set_selected] using Nat.pos_of_ne_zero h

theorem selInv_move_selection (delta : Int) (a : App) (h : selInv a) :
    selInv (move_selection delta a) := by
  by_cases hlen : activeLen a = 0
  · rw [(move_selection_spec a delta).1 hlen]
    exact h
  · cases hsel : a.selected with
    | none =>
      have := (move_selection_spec a delta).2.2 hlen hsel
      have hact : activeLen (move_selection delta a) = activeLen a := by
        simp [move_selection, hlen, hsel, activeLen_set_selected]
      simp [selInv, this, hact]
      exact Nat.pos_of_ne_zero hlen
    | some i =>
      have h1 := (move_selection_spec a delta).2.1 i hlen hsel
      have hact : activeLen (move_selection delta a) = activeLen a := by
        simp [move_selection, hlen, hsel, activeLen_set_selected]
      simp [selInv, h1.1, hact]
      exact h1.2

theorem selInv_select_first (a : App) (h : selInv a) : selInv (select_first a) := by
  by_cases hlen : 0 < activeLen a
  · simp [select_first, hlen, selInv, activeLen_set_selected]
  · simp [select_first, hlen]
    exact h

theorem selInv_select_last (a : App) (h : selInv a) : selInv (select_last a) := by
  by_cases hlen : 0 < activeLen a
  · simp [select_last, hlen, selInv, activeLen_set_selected]
  · simp [select_last, hlen]
    exact h

theorem selInv_toggle_favorite (fs : String → Bool → List String) (a : App) (h : selInv a) :
    selInv (toggle_favorite fs a) := by
  unfold toggle_favorite
  (repeat' split) <;> first
    | exact selInv_update_filter fs _
    | exact h

theorem selInv_auto_complete (fs : String → Bool → List String) (isDir : String → Bool)
    (home : Option String) (a : App) (h : selInv a) :
    selInv (auto_complete fs isDir home a) := by
  unfold auto_complete
  (repeat' split) <;> first
    | exact selInv_update_filter fs _
    | exact h

theorem selInv_new (entries : List AppEntry) (config : FeaturesConfig)
    (sm : Option String) (history : History) (hne : entries ≠ []) :
    selInv (App.new entries config sm history) := by
  have hlen : activeLen (App.new entries config sm history) = entries.length := by
    simp [App.new, sort_entries, activeLen, List.length_mergeSort]
  have hsel : (App.new entries config sm history).selected = some 0 := rfl
  simp [selInv, hsel, hlen]
  exact List.length_pos.mpr hne

/-- C5 counterexample: construction on an empty catalog — reachable via
the claim's own operation set — leaves `selected = some 0` while the
active list is empty, violating the stated invariant. -/
theorem C5_counterexample :
    Reachable (App.new [] cfg0 none hist0) ∧ ¬ selInv (App.new [] cfg0 none hist0) := by
  constructor
  · exact Reachable.init [] cfg0 none hist0
  · intro hinv
    have hsel : (App.new [] cfg0 none hist0).selected = some 0 := rfl
    have hlen : activeLen (App.new [] cfg0 none hist0) = 0 := by
      simp [App.new, sort_entries, activeLen, List.length_mergeSort]
    rw [selInv, hsel, hlen] at hinv
    omega

/-- C5 (amended): in every state reachable through construction, query
recomputation, selection movement, select first/last, favourite toggle
and auto-complete — provided the catalog is non-empty at construction —
`selected` is `none` iff the active list of the current mode is empty,
and otherwise a valid index into it. -/
theorem C5_selection_invariant (a : App) (h : ReachableNE a) : selInv a := by
  induction h with
  | init entries config sm history hne => exact selInv_new entries config sm history hne
  | filter fs _ _ => exact selInv_update_filter fs _
  | move delta _ ih => exact selInv_move_selection delta _ ih
  | first _ ih => exact selInv_select_first _ ih
  | last _ ih => exact selInv_select_last _ ih
  | fav fs _ ih => exact selInv_toggle_favorite fs _ ih
  | auto fs isDir home _ ih => exact selInv_auto_complete fs isDir home _ ih

/-- Witness for C5 at a concrete one-entry construction. -/
theorem C5_witness : selInv (App.new [fxEntry] cfg0 none hist0) :=
  C5_selection_invariant _ (ReachableNE.init [fxEntry] cfg0 none hist0 (by decide))

/-! ## Theorems: sudo-prefix extraction (C6) -/

theorem scanSudoFlags_split : ∀ (l : List String),
    (scanSudoFlags l).1 ++ (scanSudoFlags l).2 = l := by
  intro l
  induction l using scanSudoFlags.induct <;> (rw [scanSudoFlags.eq_def]; simp_all)

theorem scanSudoFlags_rest_head : ∀ (l : List String) (t : String),
    (scanSudoFlags l).2.head? = some t → startsWithStr t "-" = false := by
  intro l
  induction l using scanSudoFlags.induct <;> (rw [scanSudoFlags.eq_def]; simp_all)

theorem scanSudoFlags_shape : ∀ (l : List String), SudoFlagSeq (scanSudoFlags l).1 := by
  intro l
  induction l using scanSudoFlags.induct with
  | case1 => exact SudoFlagSeq.nil
  | case2 p h1 h2 v rest2 ih =>
    rw [scanSudoFlags.eq_def]
    simp only [if_pos h1, if_pos h2]
    exact SudoFlagSeq.valued p v _ h1 h2 ih
  | case3 p h1 h2 =>
    rw [scanSudoFlags.eq_def]
    simp only [if_pos h1, if_pos h2]
    exact SudoFlagSeq.dangling p h1 h2
  | case4 p rest h1 h2 ih =>
    rw [scanSudoFlags.eq_def]
    simp only [if_pos h1, if_neg h2]
    exact SudoFlagSeq.plain p _ h1 h2 ih
  | case5 p rest h1 =>
    rw [scanSudoFlags.eq_def]
    simp only [h1]
    exact SudoFlagSeq.nil

theorem applyFallback_sudo_args (fs : String → Bool → List String) (a : App)
    (w : List String) : (applyFallback fs a w).sudo_args = a.sudo_args := by
  unfold applyFallback
  dsimp only
  (repeat' split) <;> rfl

theorem update_filter_sudo_args (fs : String → Bool → List String) (a : App) :
    (update_filter fs a).sudo_args = (extractSudo a.search_query).1 := by
  show (recomputeLists fs a).sudo_args = (extractSudo a.search_query).1
  unfold recomputeLists
  dsimp only
  (repeat' split) <;> first
    | rfl
    | rw [applyFallback_sudo_args]

/-- C6 (amended): when the raw query both starts with the string `sudo`
and has `sudo` as its first whitespace-separated token, the scanner
collects the leading dash tokens — each flag from the fixed value-taking
set also consuming the following token — stops at the first non-flag
token, and the remaining tokens rejoined with single spaces become the
effective query; `"sudo -u root htop"` yields flags `["-u", "root"]` and
effective query `"htop"`; in every other case (including a query whose
first token is `sudo` but which has leading whitespace) no flags are
collected and the effective query is the raw query.  `update_filter`
stores the collected flags in `sudo_args`. -/
theorem C6_sudo_extraction (q : String) (fs : String → Bool → List String) (a : App) :
    (¬ (startsWithStr q "sudo" = true ∧ (splitWs q).head? = some "sudo") →
      extractSudo q = ([], q)) ∧
    (startsWithStr q "sudo" = true → (splitWs q).head? = some "sudo" →
      splitWs q = "sudo" :: (extractSudo q).1 ++ (scanSudoFlags ((splitWs q).drop 1)).2 ∧
      (extractSudo q).2 = joinSpace (scanSudoFlags ((splitWs q).drop 1)).2 ∧
      SudoFlagSeq (extractSudo q).1 ∧
      (∀ t, (scanSudoFlags ((splitWs q).drop 1)).2.head? = some t →
        startsWithStr t "-" = false)) ∧
    extractSudo "sudo -u root htop" = (["-u", "root"], "htop") ∧
    (update_filter fs a).sudo_args = (extractSudo a.search_query).1 := by
  refine ⟨?_, ?_, by decide, update_filter_sudo_args fs a⟩
  · intro hn
    unfold extractSudo
    by_cases h1 : startsWithStr q "sudo" = true
    · rw [if_pos h1]
      rw [if_neg (fun h2 => hn ⟨h1, h2⟩)]
    · rw [if_neg h1]
  · intro h1 h2
    have he : extractSudo q =
        ((scanSudoFlags ((splitWs q).drop 1)).1,
          joinSpace (scanSudoFlags ((splitWs q).drop 1)).2) := by
      unfold extractSudo
      rw [if_pos h1, if_pos h2]
    refine ⟨?_, by rw [he], by rw [he]; exact scanSudoFlags_shape _,
      fun t => scanSudoFlags_rest_head _ t⟩
    cases hq : splitWs q with
    | nil => rw [hq] at h2; simp at h2
    | cons x xs =>
      rw [hq] at h2
      simp at h2
      subst h2
      rw [he, hq]
      simp
      exact (scanSudoFlags_split xs).symm

/-- C6 counterexample: for the query `" sudo -u root htop"` the first
whitespace-separated token is exactly `sudo`, yet no flags are collected
and the effective query stays the raw query — the implementation
additionally requires the raw string itself to start with `sudo`.  The
claim instead predicts `sudo_args = ["-u", "root"]`. -/
theorem C6_counterexample :
    (splitWs " sudo -u root htop").head? = some "sudo" ∧
    startsWithStr " sudo -u root htop" "sudo" = false ∧
    extractSudo " sudo -u root htop" = ([], " sudo -u root htop") ∧
    (update_filter fs0 appC6).sudo_args = [] ∧
    (update_filter fs0 appC6).sudo_args ≠ ["-u", "root"] := by
  refine ⟨by decide, by decide, by decide, ?_, ?_⟩ <;>
    rw [update_filter_sudo_args] <;> decide

/-- Witness for C6 at the spec's own example query. -/
theorem C6_witness :
    splitWs "sudo -u root htop" =
      "sudo" :: (extractSudo "sudo -u root htop").1 ++
        (scanSudoFlags ((splitWs "sudo -u root htop").drop 1)).2 :=
  ((C6_sudo_extraction "sudo -u root htop" fs0 baseApp).2.1 (by decide) (by decide)).1

/-! ## Theorems: the word-dropping fallback (C1) -/

theorem fallbackFrom_some (entries : List AppEntry) (words : List String) :
    ∀ (n i : Nat) (m : List AppEntry),
      fallbackFrom entries words n = some (i, m) →
      1 ≤ i ∧ i ≤ n ∧ m = matchesUpTo entries words i ∧ m ≠ [] ∧
        ∀ j, i < j → j ≤ n → matchesUpTo entries words j = [] := by
  intro n
  induction n with
  | zero =>
    intro i m h
    simp [fallbackFrom] at h
  | succ k ih =>
    intro i m h
    simp only [fallbackFrom] at h
    by_cases hm : matchesUpTo entries words (k + 1) ≠ []
    · rw [if_pos hm] at h
      simp only [Option.some.injEq, Prod.mk.injEq] at h
      obtain ⟨hi, hmm⟩ := h
      subst hi
      subst hmm
      refine ⟨by omega, by omega, rfl, hm, ?_⟩
      intro j hj1 hj2
      omega
    · rw [if_neg hm] at h
      obtain ⟨h1, h2, h3, h4, h5⟩ := ih i m h
      refine ⟨h1, by omega, h3, h4, ?_⟩
      intro j hj1 hj2
      rcases Nat.eq_or_lt_of_le hj2 with he | hl
      · rw [he]
        exact not_not.mp hm
      · exact h5 j hj1 (by omega)

theorem fallbackFrom_none (entries : List AppEntry) (words : List String) :
    ∀ (n : Nat), fallbackFrom entries words n = none →
      ∀ j, 1 ≤ j → j ≤ n → matchesUpTo entries words j = [] := by
  intro n
  induction n with
  | zero =>
    intro _ j hj1 hj2
    omega
  | succ k ih =>
    intro h j hj1 hj2
    simp only [fallbackFrom] at h
    by_cases hm : matchesUpTo entries words (k + 1) ≠ []
    · rw [if_pos hm] at h
      exact absurd h (by simp)
    · rw [if_neg hm] at h
      rcases Nat.eq_or_lt_of_le hj2 with he | hl
      · rw [he]
        exact not_not.mp hm
      · exact ih h j hj1 (by omega)

theorem applyFallback_some (fs : String → Bool → List String) (a : App) (w : List String)
    (i : Nat) (m : List AppEntry)
    (h : fallbackFrom a.entries w (w.length - 1) = some (i, m)) :
    (applyFallback fs a w).filtered_entries = m ∧
    (applyFallback fs a w).launch_args =
      (if a.config.enable_launch_args = true then some (w.drop i) else a.launch_args) := by
  unfold applyFallback
  rw [h]
  dsimp only
  by_cases he : a.config.enable_launch_args = true
  · rw [if_pos he, if_pos he]
    constructor
    · (repeat' split) <;> rfl
    · (repeat' split) <;> rfl
  · rw [if_neg he, if_neg he]
    exact ⟨rfl, rfl⟩

theorem applyFallback_none (fs : String → Bool → List String) (a : App) (w : List String)
    (h : fallbackFrom a.entries w (w.length - 1) = none) :
    (applyFallback fs a w).filtered_entries = [] ∧
    (applyFallback fs a w).launch_args = a.launch_args := by
  unfold applyFallback
  rw [h]
  exact ⟨rfl, rfl⟩

theorem recompute_no_match (fs : String → Bool → List String) (a : App)
    (hfe : ¬ (a.config.enable_file_explorer = true ∧
      (startsWithStr (effQuery a) "~" = true ∨ startsWithStr (effQuery a) "/" = true)))
    (hq : ¬ (effQuery a = ""))
    (hm : filterEntries a.entries (lowerStr (effQuery a)) = []) :
    recomputeLists fs a = applyFallback fs
      { a with launch_args := none, mode := AppMode.AppSelection, filtered_files := [],
               sudo_args := (extractSudo a.search_query).1 }
      (effWords a) := by
  unfold effQuery at hfe hq hm
  unfold recomputeLists effWords effQuery
  dsimp only
  rw [if_neg hfe, if_neg hq, if_neg (by simp [hm])]

/-- C1 (amended): when the full effective query has no subsequence match,
the interpreter retries on word prefixes from the longest proper prefix
down to one word; the first (longest) prefix length with a match
determines `filtered_apps`, and — when launch-argument support is
enabled — the remaining trailing words become the pending launch
arguments exactly once (with support disabled they stay unset); if no
prefix length down to one word matches, `filtered_apps` becomes empty. -/
theorem C1_fallback_extraction (fs : String → Bool → List String) (a : App)
    (i : Nat) (m : List AppEntry)
    (hfe : ¬ (a.config.enable_file_explorer = true ∧
      (startsWithStr (effQuery a) "~" = true ∨ startsWithStr (effQuery a) "/" = true)))
    (hq : ¬ (effQuery a = ""))
    (hm : filterEntries a.entries (lowerStr (effQuery a)) = []) :
    (fallbackFrom a.entries (effWords a) ((effWords a).length - 1) = some (i, m) →
      (update_filter fs a).filtered_entries = m ∧
      (update_filter fs a).launch_args =
        (if a.config.enable_launch_args = true then some ((effWords a).drop i) else none) ∧
      m = matchesUpTo a.entries (effWords a) i ∧ m ≠ [] ∧
      1 ≤ i ∧ i ≤ (effWords a).length - 1 ∧
      (∀ j, i < j → j ≤ (effWords a).length - 1 →
        matchesUpTo a.entries (effWords a) j = [])) ∧
    (fallbackFrom a.entries (effWords a) ((effWords a).length - 1) = none →
      (update_filter fs a).filtered_entries = [] ∧
      (update_filter fs a).launch_args = none ∧
      (∀ j, 1 ≤ j → j ≤ (effWords a).length - 1 →
        matchesUpTo a.entries (effWords a) j = [])) := by
  have hre := recompute_no_match fs a hfe hq hm
  have hpf : (update_filter fs a).filtered_entries = (recomputeLists fs a).filtered_entries := rfl
  have hpl : (update_filter fs a).launch_args = (recomputeLists fs a).launch_args := rfl
  constructor
  · intro h
    have hs := applyFallback_some fs
      { a with launch_args := none, mode := AppMode.AppSelection, filtered_files := [],
               sudo_args := (extractSudo a.search_query).1 }
      (effWords a) i m h
    obtain ⟨h1, h2, h3, h4, h5⟩ := fallbackFrom_some a.entries (effWords a)
      ((effWords a).length - 1) i m h
    refine ⟨?_, ?_, h3, h4, h1, h2, h5⟩
    · rw [hpf, hre]
      exact hs.1
    · rw [hpl, hre]
      exact hs.2
  · intro h
    have hs := applyFallback_none fs
      { a with launch_args := none, mode := AppMode.AppSelection, filtered_files := [],
               sudo_args := (extractSudo a.search_query).1 }
      (effWords a) h
    refine ⟨?_, ?_, fallbackFrom_none a.entries (effWords a) ((effWords a).length - 1) h⟩
    · rw [hpf, hre]
      exact hs.1
    · rw [hpl, hre]
      exact hs.2

/-- C1 counterexample: for query `"fire fox"` over a catalog containing
only Firefox, with launch-argument support disabled, the one-word prefix
`"fire"` matches and determines the filtered list, yet the trailing word
does not become a pending launch argument (the claim predicts
`some ["fox"]` unconditionally). -/
theorem C1_counterexample :
    (update_filter fs0 appC1).filtered_entries = [fxEntry] ∧
    matchesUpTo appC1.entries (effWords appC1) 1 ≠ [] ∧
    (update_filter fs0 appC1).launch_args = none ∧
    (update_filter fs0 appC1).launch_args ≠ some ["fox"] := by
  refine ⟨by decide, by decide, by decide, by decide⟩

/-- Witness for C1 at query `"fire fox"` with launch arguments enabled. -/
theorem C1_witness :
    (update_filter fs0 appC1b).filtered_entries = [fxEntry] ∧
    (update_filter fs0 appC1b).launch_args =
      (if appC1b.config.enable_launch_args = true then
        some ((effWords appC1b).drop 1) else none) := by
  have h := (C1_fallback_extraction fs0 appC1b 1 [fxEntry]
    (by decide) (by decide) (by decide)).1 (by decide)
  exact ⟨h.1, h.2.1⟩

/-! ## Theorems: launch dispatch (C4, C10) -/

/-- C4 counterexample: for the query `"sudoku"` — whose first
whitespace-separated token is not `sudo` — confirming the selection does
not request a detached launch: the composer still defers to the password
prompt, because the implementation tests only the string prefix `sudo`. -/
theorem C4_counterexample :
    (splitWs appSudoku.search_query).head? ≠ some "sudo" ∧
    (launch_selected none appSudoku).2 = LaunchAction.noop ∧
    (launch_selected none appSudoku).2 ≠
      LaunchAction.spawnReq "sudoku" [] "Sudoku" ∧
    (launch_selected none appSudoku).1.mode = AppMode.SudoPassword ∧
    (launch_selected none appSudoku).1.pending_command = some ("sudoku", [], []) := by
  refine ⟨by decide, by decide, by decide, by decide, by decide⟩

/-- Reduction of `launch_selected` on a confirmed application selection:
the sudo branch stores the pending command and enters the prompt, the
plain branch requests a detached spawn. -/
theorem launch_dispatch_spec (home : Option String) (a : App) (i : Nat) (entry : AppEntry)
    (cmd : String) (template : List String)
    (hm : ¬ (a.mode = AppMode.SudoPassword))
    (hsel : a.selected = some i)
    (hnf : ¬ (a.mode = AppMode.FileSelection ∧ a.filtered_entries = []))
    (hent : (if a.mode = AppMode.FileSelection then a.filtered_entries.head?
             else a.filtered_entries[i]?) = some entry)
    (hexec : entry.exec_args = cmd :: template) :
    (startsWithStr a.search_query "sudo" = true →
      (launch_selected home a).2 = LaunchAction.noop ∧
      (launch_selected home a).1.mode = AppMode.SudoPassword ∧
      (launch_selected home a).1.sudo_password = "" ∧
      (launch_selected home a).1.sudo_log = ["Password: "] ∧
      (launch_selected home a).1.pending_command =
        some (cmd, composeArgs a.config.enable_launch_args a.launch_args a.mode
          a.filtered_files[i]? home template, a.sudo_args)) ∧
    (startsWithStr a.search_query "sudo" = false →
      (launch_selected home a).2 =
        LaunchAction.spawnReq cmd
          (composeArgs a.config.enable_launch_args a.launch_args a.mode
            a.filtered_files[i]? home template) entry.name) := by
  have key : launch_selected home a =
      (let a2 := { a with history := a.history.increment entry.name }
       let final_args :=
         composeArgs a.config.enable_launch_args a.launch_args a.mode
           a.filtered_files[i]? home template
       if startsWithStr a.search_query "sudo" = true then
         ({ a2 with mode := AppMode.SudoPassword,
                    sudo_password := "",
                    sudo_log := ["Password: "],
                    pending_command := some (cmd, final_args, a.sudo_args) },
          LaunchAction.noop)
       else (a2, LaunchAction.spawnReq cmd final_args entry.name)) := by
    unfold launch_selected
    rw [if_neg hm, hsel]
    dsimp only
    rw [if_neg hnf, hent]
    dsimp only
    rw [hexec]
  constructor
  · intro hsudo
    rw [key]
    dsimp only
    rw [if_pos hsudo]
    exact ⟨rfl, rfl, rfl, rfl, rfl⟩
  · intro hsudo
    rw [key]
    dsimp only
    rw [if_neg (by rw [hsudo]; exact Bool.false_ne_true)]

/-- C4 (amended): when a selection is confirmed and the raw query begins
with the four-character string `sudo` (a plain prefix test — a query such
as `"sudoku"` also triggers it), the composer does not spawn: it stores
the pending command `(executable, final arguments, sudo flags)`, switches
to the password prompt, clears the password buffer and seeds the
transcript with the single line `"Password: "`; when the raw query does
not begin with the string `sudo`, it immediately requests a detached
launch. -/
theorem C4_sudo_handshake (home : Option String) (a : App) (i : Nat) (entry : AppEntry)
    (cmd : String) (template : List String)
    (hm : ¬ (a.mode = AppMode.SudoPassword))
    (hsel : a.selected = some i)
    (hnf : ¬ (a.mode = AppMode.FileSelection ∧ a.filtered_entries = []))
    (hent : (if a.mode = AppMode.FileSelection then a.filtered_entries.head?
             else a.filtered_entries[i]?) = some entry)
    (hexec : entry.exec_args = cmd :: template) :
    (startsWithStr a.search_query "sudo" = true →
      (launch_selected home a).2 = LaunchAction.noop ∧
      (launch_selected home a).1.mode = AppMode.SudoPassword ∧
      (launch_selected home a).1.sudo_password = "" ∧
      (launch_selected home a).1.sudo_log = ["Password: "] ∧
      (launch_selected home a).1.pending_command =
        some (cmd, composeArgs a.config.enable_launch_args a.launch_args a.mode
          a.filtered_files[i]? home template, a.sudo_args)) ∧
    (startsWithStr a.search_query "sudo" = false →
      (launch_selected home a).2 =
        LaunchAction.spawnReq cmd
          (composeArgs a.config.enable_launch_args a.launch_args a.mode
            a.filtered_files[i]? home template) entry.name) :=
  launch_dispatch_spec home a i entry cmd template hm hsel hnf hent hexec

/-- Witness for C4: the `"sudoku"` state enters the handshake. -/
theorem C4_witness :
    (launch_selected none appSudoku).2 = LaunchAction.noop ∧
    (launch_selected none appSudoku).1.mode = AppMode.SudoPassword ∧
    (launch_selected none appSudoku).1.sudo_password = "" ∧
    (launch_selected none appSudoku).1.sudo_log = ["Password: "] ∧
    (launch_selected none appSudoku).1.pending_command =
      some ("sudoku", composeArgs appSudoku.config.enable_launch_args appSudoku.launch_args
        appSudoku.mode appSudoku.filtered_files[0]? none [], appSudoku.sudo_args) :=
  (C4_sudo_handshake none appSudoku 0 sudokuEntry "sudoku" [] (by decide) (by rfl)
    (by decide) (by rfl) (by rfl)).1 (by decide)

/-- C10: in `FileSelection` mode with a non-empty filtered application
list, confirming always launches the first filtered entry (the
top-ranked fallback match) regardless of the selected index, which
instead picks the file `filtered_files[i]` handed to the composer; and
with arguments pending the selected file's path overwrites the last
pending launch argument. -/
theorem C10_fileselection_target (home : Option String) (a : App) (i : Nat)
    (entry : AppEntry) (cmd : String) (template : List String)
    (hm : a.mode = AppMode.FileSelection)
    (hne : ¬ (a.filtered_entries = []))
    (hsel : a.selected = some i)
    (hhead : a.filtered_entries.head? = some entry)
    (hexec : entry.exec_args = cmd :: template) :
    (startsWithStr a.search_query "sudo" = false →
      (launch_selected home a).2 =
        LaunchAction.spawnReq cmd
          (composeArgs a.config.enable_launch_args a.launch_args AppMode.FileSelection
            a.filtered_files[i]? home template) entry.name) ∧
    (∀ la f, a.launch_args = some la → la ≠ [] → a.filtered_files[i]? = some f →
      composeArgs true (some la) AppMode.FileSelection (some f) home template =
        composeArgs true (some (la.dropLast ++ [f])) AppMode.FileSelection none home
          template) := by
  constructor
  · intro hsudo
    have hq := launch_dispatch_spec home a i entry cmd template
      (by rw [hm]; exact fun hcon => AppMode.noConfusion hcon)
      hsel (fun hcon => hne hcon.2) (by rw [if_pos hm]; exact hhead) hexec
    have := hq.2 hsudo
    rw [hm] at this
    exact this
  · intro la f _ hla _
    unfold composeArgs
    simp [setLast_eq la f hla]

/-- Witness for C10 at a concrete two-file `FileSelection` state with the
second file selected. -/
theorem C10_witness :
    (launch_selected none app10).2 =
      LaunchAction.spawnReq "firefox"
        (composeArgs app10.config.enable_launch_args app10.launch_args
          AppMode.FileSelection app10.filtered_files[1]? none ["%u"]) fxEntry.name :=
  (C10_fileselection_target none app10 1 fxEntry "firefox" ["%u"] (by rfl) (by decide)
    (by rfl) (by rfl) (by rfl)).1 (by decide)

end Flare
